import Mathlib

/-!
Verification of the `reichlab/standardize-repo-settings` repository.

The development shallowly embeds the Python scripts of the repository:

* `src/reichlab_repo_utils/get_hub_stats.py` — the hub row-count pipeline
  (`count_rows`, `count_rows_csv`, `count_rows_parquet`,
  `list_files_in_directory`, `main`, `write_csv`);
* `src/reichlab_repo_utils/util/session.py` and
  `src/standardize_repo_settings/app.py` — HTTP-session configuration;
* `src/reichlab_repo_utils/archive_repos.py` and
  `src/standardize_repo_settings/archive_repos.py` — the archive loop.

Network effects are modelled by explicit oracles (a record of functions from
URLs to `Except`-valued responses), and the GitHub directory-listing API by an
inductive tree of pages and items, so every embedded function is executable.
-/

namespace HubStats

/-! ### Python `urllib.parse.urlsplit(...).path` and `pathlib.Path` helpers

`count_rows` computes `file_path = Path(urlsplit(file_url).path)`, then uses
`file_path.name` and `file_path.suffix`.  We model the path component of a URL
and pathlib's `name`/`suffix` accessors for POSIX-style paths.
-/

/-- The characters after the first `://` in `cs`, if `://` occurs. -/
def afterSchemeSep : List Char → Option (List Char)
  | [] => none
  | ':' :: '/' :: '/' :: rest => some rest
  | _ :: rest => afterSchemeSep rest

/-- Model of `urlsplit(url).path`: drop the fragment (`#...`) and the query
(`?...`), then, for an absolute URL, drop the `scheme://authority` part,
keeping the path from its leading `/`. -/
def urlsplitPath (url : String) : String :=
  let noFrag := url.toList.takeWhile (fun x => x ≠ '#')
  let noQuery := noFrag.takeWhile (fun x => x ≠ '?')
  match afterSchemeSep noQuery with
  | some rest => String.mk (rest.dropWhile (fun x => x ≠ '/'))
  | none => String.mk noQuery

/-- Split a list of characters at every occurrence of the separator `c`. -/
def splitChar (c : Char) : List Char → List (List Char)
  | [] => [[]]
  | x :: rest =>
      if x = c then [] :: splitChar c rest
      else
        match splitChar c rest with
        | [] => [[x]]
        | g :: gs => (x :: g) :: gs

/-- The last element of a list, or a default. -/
def lastOr {α : Type} (d : α) (l : List α) : α :=
  l.foldl (fun _ x => x) d

/-- Model of `pathlib.Path(p).name`: the final nonempty path component. -/
def pathName (p : String) : String :=
  String.mk (lastOr [] ((splitChar '/' p.toList).filter (fun s => s ≠ [])))

/-- Index of the last `.` in a list of characters, if any. -/
def lastDotIdx (cs : List Char) : Option Nat :=
  ((cs.enum.filter (fun q => q.2 = '.')).map Prod.fst).foldl (fun _ x => some x) none

/-- Model of `pathlib.Path(p).suffix` applied to a bare file name: the part of
the name from its last dot, unless that dot is the first or the last
character (pathlib returns `''` in those cases). -/
def pathSuffix (name : String) : String :=
  match lastDotIdx name.toList with
  | none => ""
  | some i =>
      if 0 < i ∧ i + 1 < name.toList.length then String.mk (name.toList.drop i)
      else ""

/-- Model of Python `str.splitlines()` restricted to `\n`-separated text:
the number of newline-delimited records (a trailing newline does not start an
empty extra record, and the empty string has zero records). -/
def splitlinesCount (s : String) : Nat :=
  s.toList.count '\n' +
    (if s.toList ≠ [] ∧ s.toList.getLast? ≠ some '\n' then 1 else 0)

/-! ### The network oracle

`get_hub_stats.py` touches the network in two ways while counting rows: the
CSV branch downloads the file body through the shared `requests` session
(`session.get(url)` followed by `raise_for_status()`), and the parquet branch
asks duckdb for the `num_rows` metadata of the remote file
(`parquet_file_metadata(...)` followed by `fetchone()`).  An oracle fixes the
outcome of both for every URL; `.error` means the Python call raised. -/
structure Network where
  /-- Outcome of `session.get(url).text` after `raise_for_status()`:
  the body on success, or a raised exception. -/
  csvText : String → Except String String
  /-- Outcome of duckdb's parquet-metadata query followed by `fetchone()`:
  `some n` for a row count, `none` when `fetchone()` returns `None`,
  `.error` when the query raised. -/
  parquetNumRows : String → Except String (Option Nat)

/-- `count_rows_csv`: download the file and count its lines; any network or
HTTP error propagates as an exception. -/
def count_rows_csv (net : Network) (file_url : String) : Except String Nat :=
  match net.csvText file_url with
  | .error e => .error e
  | .ok text => .ok (splitlinesCount text)

/-- `count_rows_parquet`: read `num_rows` from the parquet metadata; a `None`
result from `fetchone()` is logged and counted as `0`; a raised query error
propagates. -/
def count_rows_parquet (net : Network) (file_url : String) : Except String Nat :=
  match net.parquetNumRows file_url with
  | .error e => .error e
  | .ok none => .ok 0
  | .ok (some n) => .ok n

/-- The dispatch inside `count_rows`'s `try` block: file suffix `.csv` goes to
`count_rows_csv`, every other suffix goes to `count_rows_parquet`. -/
def count_rows_dispatch (net : Network) (file_url : String) : Except String Nat :=
  let file_name := pathName (urlsplitPath file_url)
  if pathSuffix file_name = ".csv" then count_rows_csv net file_url
  else count_rows_parquet net file_url

/-- `count_rows`: returns `(file_name, count)`; any exception raised while
counting is caught, logged, and replaced by a count of `0`. -/
def count_rows (net : Network) (file_url : String) : String × Nat :=
  let file_name := pathName (urlsplitPath file_url)
  match count_rows_dispatch net file_url with
  | .ok count => (file_name, count)
  | .error _ => (file_name, 0)

/-! ### The GitHub directory-listing API

`list_files_in_directory` walks `GET /repos/{owner}/{repo}/contents/{dir}`:
a `while url` loop over pages (the next page comes from the response's `next`
link), a `for item in data` loop over a page's entries, and a recursive call
for entries of type `dir`.  We model the server's pre-arranged responses as a
tree: a `Listing` is the sequence of pages the server returns for one
directory URL (each page carries its HTTP status), and a `dir` item carries
the listing of the subdirectory it points to. -/

mutual
/-- The pages a directory URL serves: `done` when no `next` link follows. -/
inductive Listing where
  | done : Listing
  | page (status : Nat) (items : Items) (rest : Listing) : Listing
/-- The entries of one page of a directory listing. -/
inductive Items where
  | nil : Items
  | cons (i : Item) (rest : Items) : Items
/-- One entry of a directory listing: a file with its `download_url`, an
entry of another type (symlink, submodule), or a subdirectory. -/
inductive Item where
  | file (downloadUrl : String) : Item
  | other : Item
  | dir (sub : Listing) : Item
end

/-- Python `str.endswith` for our purposes: `s` ends with `suf`. -/
def strEndsWith (s suf : String) : Bool :=
  s.toList.reverse.take suf.toList.length == suf.toList.reverse

/-- `FILE_COUNT = 0`: the testing limit on the number of listed files is
disabled in the script as committed. -/
def FILE_COUNT : Nat := 0

mutual
/-- The `while url:` loop of `list_files_in_directory`: a 404 page stops
pagination and returns the files collected so far; any other status `≥ 400`
makes `raise_for_status()` raise; otherwise the page's items are processed
and the `next` link followed. -/
def walkPages (FC : Nat) (acc : List String) : Listing → Except Nat (List String)
  | .done => .ok acc
  | .page status items rest =>
      if status = 404 then .ok acc
      else if 400 ≤ status then .error status
      else
        match walkItems FC acc items with
        | .error e => .error e
        | .ok acc2 => walkPages FC acc2 rest
/-- The `for item in data:` loop: a file entry whose `download_url` ends in
`.csv` or `.parquet` is appended; a `dir` entry is recursed into (with a
fresh accumulator, spliced in by `files.extend`); after each item the
testing limit `FC` is checked and, when positive and reached, the item loop
breaks. -/
def walkItems (FC : Nat) (acc : List String) : Items → Except Nat (List String)
  | .nil => .ok acc
  | .cons i rest =>
      match
        (match i with
         | .file u =>
             Except.ok
               (if strEndsWith u ".csv" || strEndsWith u ".parquet" then acc ++ [u] else acc)
         | .other => Except.ok acc
         | .dir sub =>
             match walkPages FC [] sub with
             | .error e => .error e
             | .ok subFiles => .ok (acc ++ subFiles))
      with
      | .error e => .error e
      | .ok acc2 =>
          if 0 < FC ∧ FC ≤ acc2.length then .ok acc2
          else walkItems FC acc2 rest
end

/-- `list_files_in_directory`: walk the listing starting from an empty file
list; `.ok` carries the collected download URLs, `.error` the HTTP status
`raise_for_status()` raised on. -/
def list_files_in_directory (FC : Nat) (l : Listing) : Except Nat (List String) :=
  walkPages FC [] l

/-! ### Label derivation in `main`

For `model-output` rows, `main` adds a `model_id` column computed by the
polars expression
`col("file").str.slice(11).str.strip_chars_start("_-").str.splitn(".", 2)
.struct.field("model_id")`; the surrounding `pl.when(col("dir") ==
"model-output")` has no `otherwise`, so `target-data` rows get null. -/

/-- polars `str.slice(offset)` with no length: the characters from
`offset` to the end (empty when the string is shorter). -/
def strSlice (offset : Nat) (s : String) : String :=
  String.mk (s.toList.drop offset)

/-- polars `str.strip_chars_start(chars)`: remove leading characters that
belong to `chars`. -/
def stripCharsStart (chars : List Char) (s : String) : String :=
  String.mk (s.toList.dropWhile (fun c => decide (c ∈ chars)))

/-- polars `str.splitn(sep, 2)` followed by taking the first struct field:
the part of `s` before the first `sep` (all of `s` when `sep` is absent). -/
def splitnFirstField (sep : Char) (s : String) : String :=
  String.mk (s.toList.takeWhile (fun c => c ≠ sep))

/-- The `model_id` expression of `main`, applied to one file name. -/
def model_id (file_name : String) : String :=
  splitnFirstField '.' (stripCharsStart ['_', '-'] (strSlice 11 file_name))

/-- The `model_id` column value for a row: a label for `model-output` rows,
null (`none`) for any other directory. -/
def derivedLabel (dir file_name : String) : Option String :=
  if dir = "model-output" then some (model_id file_name) else none

/-- The label formula as the claim words it: first 11 characters removed,
remainder split at the first period, keeping the segment before the period
(no stripping step).  Used only to compare the claim against the code. -/
def labelPerClaim (file_name : String) : String :=
  splitnFirstField '.' (strSlice 11 file_name)

/-- The label formula as amended: first 11 characters removed, then leading
`_`/`-` characters removed, then the remainder up to the first period. -/
def labelAmended (cs : List Char) : List Char :=
  ((cs.drop 11).dropWhile (fun c => decide (c = '_' ∨ c = '-'))).takeWhile
    (fun c => c ≠ '.')

/-! ### Aggregation of per-file results

`main` reduces the per-file results with
`all_counts = defaultdict(int); for result in all_results:
all_counts[result[0]] += result[1]` and then reads the dict back in key
insertion order.  We embed the dict as an association list in insertion
order; the same structure models the SQL `GROUP BY` of `write_csv` with the
key `(repo, dir)`. -/

section Grouping

variable {κ : Type} [DecidableEq κ]

/-- One step of `all_counts[result[0]] += result[1]`: increment the entry of
the key if present, else append a fresh entry at the end. -/
def addEntry : List (κ × Nat) → κ × Nat → List (κ × Nat)
  | [], r => [r]
  | (k, v) :: rest, r =>
      if k = r.1 then (k, v + r.2) :: rest else (k, v) :: addEntry rest r

/-- The whole reduction loop: fold `addEntry` over the results, starting from
the empty dict. -/
def groupSum (rs : List (κ × Nat)) : List (κ × Nat) :=
  rs.foldl addEntry []

/-- Dict lookup on the association list. -/
def lookupV : List (κ × Nat) → κ → Option Nat
  | [], _ => none
  | (k, v) :: rest, q => if k = q then some v else lookupV rest q

/-- The sum of the counts recorded for key `k` in a raw result list. -/
def sumFor (rs : List (κ × Nat)) (k : κ) : Nat :=
  ((rs.filter (fun p => decide (p.1 = k))).map Prod.snd).sum

end Grouping

/-! ### Rows and the rebuilt reports

One pandas/polars row of a per-repository stats table, as built by `main`:
the grouped `(file, row_count)` pair plus the constant `dir` and `repo`
columns and the derived `model_id` column.  `write_csv` unions all persisted
per-repository tables into a detail table (a plain list of such rows) and
derives the summary via
`SELECT repo, dir, SUM(row_count) ... GROUP BY repo, dir ORDER BY repo, dir`. -/
structure Row where
  file : String
  row_count : Nat
  dir : String
  repo : String
  model_id : Option String
deriving DecidableEq

/-- The `ORDER BY repo, dir` comparison: lexicographic on the two strings. -/
def pairLe (a b : String × String) : Prop :=
  a.1 < b.1 ∨ (a.1 = b.1 ∧ a.2 ≤ b.2)

instance : DecidableRel pairLe := fun a b => by
  unfold pairLe
  infer_instance

instance : IsTotal (String × String) pairLe := by
  constructor
  intro a b
  rcases lt_trichotomy a.1 b.1 with h | h | h
  · exact Or.inl (Or.inl h)
  · rcases le_total a.2 b.2 with h2 | h2
    · exact Or.inl (Or.inr ⟨h, h2⟩)
    · exact Or.inr (Or.inr ⟨h.symm, h2⟩)
  · exact Or.inr (Or.inl h)

instance : IsTrans (String × String) pairLe := by
  constructor
  intro a b c hab hbc
  rcases hab with h1 | ⟨e1, l1⟩
  · rcases hbc with h2 | ⟨e2, l2⟩
    · exact Or.inl (h1.trans h2)
    · exact Or.inl (e2 ▸ h1)
  · rcases hbc with h2 | ⟨e2, l2⟩
    · exact Or.inl (e1 ▸ h2)
    · exact Or.inr ⟨e1.trans e2, l1.trans l2⟩

/-- The `ORDER BY repo, dir` comparison lifted to whole summary entries:
entries are compared by their `(repo, dir)` key. -/
def entryLe (a b : (String × String) × Nat) : Prop :=
  pairLe a.1 b.1

instance : DecidableRel entryLe := fun a b => by
  unfold entryLe pairLe
  infer_instance

instance : IsTotal ((String × String) × Nat) entryLe := by
  constructor
  intro a b
  exact @IsTotal.total _ pairLe _ a.1 b.1

instance : IsTrans ((String × String) × Nat) entryLe := by
  constructor
  intro a b c hab hbc
  exact @IsTrans.trans _ pairLe _ a.1 b.1 c.1 hab hbc

/-- The summary query of `write_csv`: group the detail rows by
`(repo, dir)`, sum `row_count` within each group, and order the result by
repo then dir ascending. -/
def summarize (rows : List Row) : List ((String × String) × Nat) :=
  List.insertionSort entryLe
    (groupSum (rows.map (fun x => ((x.repo, x.dir), x.row_count))))

/-- The sum of the per-file counts recorded in the detail table for one
`(repo, dir)` pair. -/
def sumRC (rows : List Row) (r d : String) : Nat :=
  ((rows.filter (fun x => decide (x.repo = r ∧ x.dir = d))).map Row.row_count).sum

/-! ### The concurrent counting step and the per-repository pipeline

`main` submits one `count_rows` task per listed file
(`futures = [executor.submit(count_rows, file) for file in files]`) and then
gathers `all_results = [f.result() for f in futures]`: results are read back
in submission order, whatever order the thread pool completed them in.  We
model a finished pool as the set of `(submission index, result)` pairs in an
arbitrary completion order, and gathering as lookup by index. -/

/-- `[f.result() for f in futures]`: retrieve each submitted task's result
by its submission index. -/
def gatherResults {α : Type} (n : Nat) (completed : List (Nat × α)) : List (Option α) :=
  (List.range n).map (fun i => (completed.find? (fun p => p.1 == i)).map Prod.snd)

/-- The rows `main` builds for one directory: group the per-file results by
file name summing counts, then attach the constant `dir` and `repo` columns
and the derived `model_id` column. -/
def dirRows (directory owner repo : String) (files : List String) (net : Network) :
    List Row :=
  (groupSum (files.map (count_rows net))).map
    (fun p =>
      ⟨p.1, p.2, directory, owner ++ "/" ++ repo,
        if directory = "model-output" then some (model_id p.1) else none⟩)

/-- The per-repository pipeline of `main`: list `model-output`, then
`target-data` (a listing failure propagates and aborts the repository), skip
empty directories, and concatenate the two directory tables in that fixed
order.  The result is the table written to `{repo}.parquet`. -/
def main_pipeline (owner repo : String) (mo td : Listing) (net : Network) :
    Except Nat (List Row) :=
  match list_files_in_directory FILE_COUNT mo with
  | .error e => .error e
  | .ok moFiles =>
      match list_files_in_directory FILE_COUNT td with
      | .error e => .error e
      | .ok tdFiles =>
          .ok ((if moFiles.isEmpty then [] else dirRows "model-output" owner repo moFiles net)
            ++ (if tdFiles.isEmpty then [] else dirRows "target-data" owner repo tdFiles net))

/-- An oracle on which every network interaction raises. -/
def netFail : Network :=
  { csvText := fun _ => .error "boom"
    parquetNumRows := fun _ => .error "boom" }

/-- An oracle whose CSV bodies have three lines and whose parquet metadata
reports seven rows, so the two counting branches give different results. -/
def netSplit : Network :=
  { csvText := fun _ => .ok "a\nb\nc"
    parquetNumRows := fun _ => .ok (some 7) }

end HubStats

namespace Scripts

/-! ### HTTP-session configuration and the token check of each entry point

Three session constructions exist in the repository:
`reichlab_repo_utils/util/session.py:get_session` (used by `archive_repos`,
`add_repo_rulesets` and `list_repos`), `standardize_repo_settings/app.py`'s
own `get_session`, and the module-level `requests.Session()` of
`get_hub_stats.py`.  A session is modelled by the headers it sets and the
retry adapter it mounts, if any. -/

/-- The `urllib3.util.retry.Retry` configuration mounted on a session. -/
structure RetryConfig where
  total : Nat
  allowedMethods : List String
  backoffFactor : Nat
  statusForcelist : List Nat
deriving DecidableEq

/-- A configured `requests.Session`: its headers and its optional retry
adapter (`none` when no `HTTPAdapter(max_retries=...)` is mounted). -/
structure SessionConfig where
  authHeader : String
  accept : String
  apiVersion : Option String
  retry : Option RetryConfig
deriving DecidableEq

/-- `reichlab_repo_utils/util/session.py:get_session`. -/
def util_get_session (token : String) : SessionConfig :=
  ⟨"Bearer " ++ token, "application/vnd.github.v3+json", some "2022-11-28",
    some ⟨5, ["GET", "POST", "PATCH"], 1, [429, 500, 502, 503, 504]⟩⟩

/-- `standardize_repo_settings/app.py:get_session`. -/
def app_get_session (token : String) : SessionConfig :=
  ⟨"Bearer " ++ token, "application/vnd.github.v3+json", some "2022-11-28",
    some ⟨5, ["GET", "POST"], 1, [500, 502, 503, 504]⟩⟩

/-- The module-level session of `get_hub_stats.py`: a bare
`requests.Session()` whose headers are updated; no retry adapter is
mounted. -/
def hub_stats_session (token : String) : SessionConfig :=
  ⟨"token " ++ token, "application/vnd.github.v3+json", none, none⟩

/-- How a script run starts: aborted before any network call, or proceeding
to network activity with a configured session. -/
inductive ScriptRun where
  | aborted : ScriptRun
  | proceeds (session : SessionConfig) : ScriptRun
deriving DecidableEq

/-- Module initialisation of `get_hub_stats.py`:
`os.environ["GITHUB_TOKEN"]` raises `KeyError` when the variable is absent,
re-raised as `ValueError`, so the run aborts before any request. -/
def hub_stats_init (env : Option String) : ScriptRun :=
  match env with
  | none => .aborted
  | some t => .proceeds (hub_stats_session t)

/-- The `main` of `reichlab_repo_utils/archive_repos.py`,
`add_repo_rulesets.py` and `list_repos.py` (identical token handling):
`token = os.getenv("GITHUB_TOKEN"); if not token: log error; return` —
a missing or empty token aborts before the session is built. -/
def guarded_main (env : Option String) : ScriptRun :=
  match env with
  | none => .aborted
  | some t => if t = "" then .aborted else .proceeds (util_get_session t)

/-- The `main` of `standardize_repo_settings/app.py`: the token is read with
`os.getenv` but never checked; `get_session(token)` is called regardless,
and Python renders the missing token as the literal string `None` inside the
`f"Bearer {token}"` header. -/
def app_main (env : Option String) : ScriptRun :=
  .proceeds (app_get_session (match env with | none => "None" | some t => t))

end Scripts

namespace Archive

/-- One repository as returned by the organization listing, restricted to
the fields `archive_repo` reads: `name` and `archived`. -/
structure RepoInfo where
  name : String
  archived : Bool
deriving DecidableEq

/-- The filter of `archive_repo`: `repo["name"] in ARCHIVE_REPO_LIST and
repo["archived"] is False`.  The loop then issues exactly one PATCH per
member of this list, so it is the set of repositories patched. -/
def repos_to_update (allowList : List String) (repos : List RepoInfo) :
    List RepoInfo :=
  repos.filter (fun repo => decide (repo.name ∈ allowList) && decide (repo.archived = false))

/-- The organization state after a run in which every PATCH succeeded:
each patched repository's `archived` flag is set. -/
def apply_archive (allowList : List String) (repos : List RepoInfo) :
    List RepoInfo :=
  repos.map (fun repo =>
    if repo.name ∈ allowList ∧ repo.archived = false then ⟨repo.name, true⟩ else repo)

end Archive

/-- C1: for every file URL, `count_rows` catches any failure of the underlying
counting internally (its return type is a plain pair, not an exception), and
when the dispatched counting raises it returns the file's name paired with a
count of zero, so the caller's per-file loop continues. -/
theorem count_rows_catches_failures (net : HubStats.Network) (url : String)
    (e : String) (h : HubStats.count_rows_dispatch net url = .error e) :
    HubStats.count_rows net url = (HubStats.pathName (HubStats.urlsplitPath url), 0) := by
  unfold HubStats.count_rows
  rw [h]

theorem count_rows_catches_failures_witness :
    HubStats.count_rows HubStats.netFail "https://example.com/data/f.csv"
      = (HubStats.pathName (HubStats.urlsplitPath "https://example.com/data/f.csv"), 0) :=
  count_rows_catches_failures HubStats.netFail "https://example.com/data/f.csv" "boom" rfl

/-- C2 (counterexample): the claim says any suffix other than `.parquet` is
treated as delimited text.  For the URL `https://example.com/data/run.txt`
(suffix `.txt`, not `.parquet`) the code takes the parquet-metadata branch:
with an oracle whose CSV bodies have three lines and whose parquet metadata
reports seven rows, `count_rows` returns 7, not the line count 3. -/
theorem count_rows_txt_goes_to_parquet :
    HubStats.pathSuffix
        (HubStats.pathName (HubStats.urlsplitPath "https://example.com/data/run.txt"))
      ≠ ".parquet" ∧
    HubStats.count_rows HubStats.netSplit "https://example.com/data/run.txt"
      = ("run.txt", 7) ∧
    HubStats.count_rows HubStats.netSplit "https://example.com/data/run.txt"
      ≠ ("run.txt", HubStats.splitlinesCount "a\nb\nc") := by
  refine ⟨by decide, by decide, by decide⟩

/-- C2 (amended): `count_rows` dispatches on the file-name suffix `.csv`, not
`.parquet`: a URL whose suffix is `.csv` is downloaded in full and its
newline-delimited lines counted, and a URL with any other suffix (including
`.parquet`) is counted by querying the parquet row-count metadata; in the
latter case the result depends only on the metadata oracle, never on
downloaded file content. -/
theorem count_rows_dispatches_on_csv (net net' : HubStats.Network) (url : String) :
    (HubStats.pathSuffix (HubStats.pathName (HubStats.urlsplitPath url)) = ".csv" →
       HubStats.count_rows_dispatch net url = HubStats.count_rows_csv net url) ∧
    (HubStats.pathSuffix (HubStats.pathName (HubStats.urlsplitPath url)) ≠ ".csv" →
       HubStats.count_rows_dispatch net url = HubStats.count_rows_parquet net url ∧
       (net'.parquetNumRows = net.parquetNumRows →
          HubStats.count_rows net' url = HubStats.count_rows net url)) := by
  constructor
  · intro h
    unfold HubStats.count_rows_dispatch
    rw [if_pos h]
  · intro h
    constructor
    · unfold HubStats.count_rows_dispatch
      rw [if_neg h]
    · intro hp
      unfold HubStats.count_rows HubStats.count_rows_dispatch
      rw [if_neg h, if_neg h]
      unfold HubStats.count_rows_parquet
      rw [hp]

theorem count_rows_dispatches_on_csv_witness :
    HubStats.pathSuffix
        (HubStats.pathName (HubStats.urlsplitPath "https://example.com/data/run.txt"))
      ≠ ".csv" ∧
    HubStats.count_rows_dispatch HubStats.netSplit "https://example.com/data/run.txt"
      = HubStats.count_rows_parquet HubStats.netSplit "https://example.com/data/run.txt" :=
  ⟨by decide,
    ((count_rows_dispatches_on_csv HubStats.netSplit HubStats.netSplit
        "https://example.com/data/run.txt").2 (by decide)).1⟩

/-- C3: a listing whose (first) request answers 404 yields `.ok []` — an
empty file list, no exception; any other non-success status (`≥ 400`)
makes the call raise that status. -/
theorem list_files_404_empty_other_errors_raise (FC status : Nat)
    (items : HubStats.Items) (rest : HubStats.Listing) :
    (status = 404 →
       HubStats.list_files_in_directory FC (.page status items rest) = .ok []) ∧
    (status ≠ 404 → 400 ≤ status →
       HubStats.list_files_in_directory FC (.page status items rest) = .error status) := by
  constructor
  · intro h
    simp [HubStats.list_files_in_directory, HubStats.walkPages, h]
  · intro h1 h2
    simp [HubStats.list_files_in_directory, HubStats.walkPages, h1, h2]

theorem list_files_404_empty_other_errors_raise_witness :
    HubStats.list_files_in_directory HubStats.FILE_COUNT (.page 404 .nil .done) = .ok [] ∧
    HubStats.list_files_in_directory HubStats.FILE_COUNT (.page 500 .nil .done) = .error 500 :=
  ⟨(list_files_404_empty_other_errors_raise HubStats.FILE_COUNT 404 .nil .done).1 rfl,
   (list_files_404_empty_other_errors_raise HubStats.FILE_COUNT 500 .nil .done).2
      (by decide) (by decide)⟩

/-- C4 (counterexample): the claim's label formula omits the
`strip_chars_start("_-")` step of the code.  For the model-output file name
`2023-01-07-_team.csv` the code derives `team` (the leading `_` left after
removing the 11-character prefix is stripped), while the claim's formula
(remove 11 characters, split at the first period) yields `_team`. -/
theorem derived_label_counterexample :
    HubStats.derivedLabel "model-output" "2023-01-07-_team.csv" = some "team" ∧
    HubStats.labelPerClaim "2023-01-07-_team.csv" = "_team" ∧
    ("team" : String) ≠ "_team" := by
  refine ⟨by decide, by decide, by decide⟩

/-- C4 (amended): for model-output rows the derived label equals the file
name with its first 11 characters removed, then any leading `_` or `-`
characters removed, and the remainder split at the first period, keeping the
segment before the period; `2023-01-07-myteam-mymodel.csv` yields
`myteam-mymodel`; for any other directory (in particular `target-data`) no
label is derived. -/
theorem derived_label_amended (dir file_name : String) :
    HubStats.derivedLabel dir file_name =
      (if dir = "model-output"
       then some (String.mk (HubStats.labelAmended file_name.toList))
       else none) ∧
    HubStats.derivedLabel "model-output" "2023-01-07-myteam-mymodel.csv"
      = some "myteam-mymodel" ∧
    HubStats.derivedLabel "target-data" file_name = none := by
  refine ⟨?_, by decide, rfl⟩
  by_cases h : dir = "model-output"
  · rw [HubStats.derivedLabel, if_pos h, if_pos h]
    have hpred : (fun c => decide (c ∈ ['_', '-'])) =
        (fun c => decide (c = '_' ∨ c = '-')) := by
      funext c
      simp [List.mem_cons]
    simp [HubStats.model_id, HubStats.labelAmended, HubStats.splitnFirstField,
      HubStats.stripCharsStart, HubStats.strSlice, hpred]
  · rw [HubStats.derivedLabel, if_neg h, if_neg h]

namespace HubStats

/-- `addEntry` changes the lookup only at the inserted key, where it adds. -/
theorem lookupV_addEntry {κ : Type} [DecidableEq κ]
    (acc : List (κ × Nat)) (r : κ × Nat) (q : κ) :
    lookupV (addEntry acc r) q =
      if q = r.1 then some ((lookupV acc q).getD 0 + r.2) else lookupV acc q := by
  induction acc with
  | nil =>
      by_cases h : q = r.1
      · simp [addEntry, lookupV, h]
      · have h' : ¬ r.1 = q := fun hh => h hh.symm
        simp [addEntry, lookupV, h, h']
  | cons p rest ih =>
      obtain ⟨k, v⟩ := p
      by_cases hk : k = r.1
      · by_cases hq : q = r.1
        · simp [addEntry, lookupV, hk, hq, hk.trans hq.symm]
        · have h1 : ¬ k = q := fun hh => hq (hh.symm.trans hk)
          have h2 : ¬ r.1 = q := fun hh => hq hh.symm
          simp [addEntry, lookupV, hk, hq, h1, h2]
      · by_cases hkq : k = q
        · have hq : ¬ q = r.1 := fun hh => hk (hkq.trans hh)
          simp [addEntry, lookupV, hk, hkq, hq]
        · simp [addEntry, lookupV, hk, hkq, ih]

/-- A key is present after `addEntry` iff it was present or was inserted. -/
theorem mem_keys_addEntry {κ : Type} [DecidableEq κ]
    (acc : List (κ × Nat)) (r : κ × Nat) (q : κ) :
    q ∈ (addEntry acc r).map Prod.fst ↔ q ∈ acc.map Prod.fst ∨ q = r.1 := by
  induction acc with
  | nil => simp [addEntry]
  | cons p rest ih =>
      obtain ⟨k, v⟩ := p
      by_cases hk : k = r.1
      · subst hk
        have hstep : addEntry ((r.1, v) :: rest) r = (r.1, v + r.2) :: rest := by
          simp [addEntry]
        rw [hstep]
        simp only [List.map_cons, List.mem_cons]
        tauto
      · simp only [addEntry, if_neg hk, List.map_cons, List.mem_cons, ih]
        tauto

/-- `addEntry` preserves distinctness of the keys. -/
theorem nodup_keys_addEntry {κ : Type} [DecidableEq κ]
    (acc : List (κ × Nat)) (r : κ × Nat)
    (h : (acc.map Prod.fst).Nodup) : ((addEntry acc r).map Prod.fst).Nodup := by
  induction acc with
  | nil => simp [addEntry]
  | cons p rest ih =>
      obtain ⟨k, v⟩ := p
      simp only [List.map_cons, List.nodup_cons] at h
      by_cases hk : k = r.1
      · simpa [addEntry, hk, List.nodup_cons] using h
      · have := ih h.2
        simp only [addEntry, if_neg hk, List.map_cons, List.nodup_cons]
        refine ⟨?_, this⟩
        rw [mem_keys_addEntry]
        tauto

end HubStats

namespace HubStats

/-- Unfolding lemma: the contribution of the head result to a key's sum. -/
theorem sumFor_cons {κ : Type} [DecidableEq κ]
    (r : κ × Nat) (rs : List (κ × Nat)) (q : κ) :
    sumFor (r :: rs) q = (if r.1 = q then r.2 else 0) + sumFor rs q := by
  by_cases h : r.1 = q <;> simp [sumFor, List.filter_cons, h]

/-- A key that never occurs in the raw results sums to zero. -/
theorem sumFor_eq_zero {κ : Type} [DecidableEq κ]
    {rs : List (κ × Nat)} {q : κ} (h : q ∉ rs.map Prod.fst) : sumFor rs q = 0 := by
  induction rs with
  | nil => simp [sumFor]
  | cons r rest ih =>
      simp only [List.map_cons, List.mem_cons] at h
      push_neg at h
      rw [sumFor_cons, if_neg (fun hh => h.1 hh.symm), ih h.2]

/-- Lookup in the folded dict: present keys map to the sum of their counts. -/
theorem lookupV_foldl {κ : Type} [DecidableEq κ] (rs : List (κ × Nat)) :
    ∀ (acc : List (κ × Nat)) (q : κ),
      lookupV (rs.foldl addEntry acc) q =
        if q ∈ rs.map Prod.fst
        then some ((lookupV acc q).getD 0 + sumFor rs q)
        else lookupV acc q := by
  induction rs with
  | nil => intro acc q; simp [sumFor]
  | cons r rest ih =>
      intro acc q
      rw [List.foldl_cons, ih, lookupV_addEntry]
      by_cases hq : q = r.1
      · have hkeys : q ∈ (r :: rest).map Prod.fst := by simp [hq]
        by_cases hmem : q ∈ rest.map Prod.fst
        · rw [if_pos hmem, if_pos hq, if_pos hkeys, sumFor_cons, if_pos hq.symm]
          simp [Nat.add_assoc]
        · rw [if_neg hmem, if_pos hq, if_pos hkeys, sumFor_cons, if_pos hq.symm,
            sumFor_eq_zero hmem]
          simp
      · have hq' : ¬ r.1 = q := fun hh => hq hh.symm
        by_cases hmem : q ∈ rest.map Prod.fst <;>
          simp [hq, hq', hmem, sumFor_cons]

/-- Lookup in the aggregated dict. -/
theorem lookupV_groupSum {κ : Type} [DecidableEq κ] (rs : List (κ × Nat)) (q : κ) :
    lookupV (groupSum rs) q =
      if q ∈ rs.map Prod.fst then some (sumFor rs q) else none := by
  have h := lookupV_foldl rs [] q
  simpa [groupSum, lookupV] using h

/-- The aggregated dict has pairwise-distinct keys. -/
theorem nodup_keys_groupSum {κ : Type} [DecidableEq κ] (rs : List (κ × Nat)) :
    ((groupSum rs).map Prod.fst).Nodup := by
  have h : ∀ acc : List (κ × Nat), (acc.map Prod.fst).Nodup →
      ((rs.foldl addEntry acc).map Prod.fst).Nodup := by
    induction rs with
    | nil => intro acc h; exact h
    | cons r rest ih => intro acc hacc; exact ih _ (nodup_keys_addEntry _ _ hacc)
  simpa [groupSum] using h [] (by simp)

/-- In an association list with distinct keys, membership is lookup. -/
theorem mem_lookupV {κ : Type} [DecidableEq κ]
    {l : List (κ × Nat)} (hnd : (l.map Prod.fst).Nodup) (k : κ) (v : Nat) :
    (k, v) ∈ l ↔ lookupV l k = some v := by
  induction l with
  | nil => simp [lookupV]
  | cons p rest ih =>
      obtain ⟨a, b⟩ := p
      simp only [List.map_cons, List.nodup_cons] at hnd
      by_cases hak : a = k
      · subst hak
        rw [lookupV, if_pos rfl]
        constructor
        · intro hmem
          rcases List.mem_cons.mp hmem with heq | hmem'
          · injection heq with h1 h2
            rw [h2]
          · exact absurd (List.mem_map.mpr ⟨(a, v), hmem', rfl⟩) hnd.1
        · intro hsome
          have hbv : b = v := Option.some.inj hsome
          exact List.mem_cons.mpr (Or.inl (by rw [hbv]))
      · rw [lookupV, if_neg hak, ← ih hnd.2]
        constructor
        · intro hmem
          rcases List.mem_cons.mp hmem with heq | hmem'
          · exact absurd (congrArg Prod.fst heq).symm hak
          · exact hmem'
        · intro hmem'
          exact List.mem_cons.mpr (Or.inr hmem')

/-- Membership in the aggregated dict: one entry per occurring key, carrying
the summed count. -/
theorem mem_groupSum {κ : Type} [DecidableEq κ] (rs : List (κ × Nat)) (k : κ) (v : Nat) :
    (k, v) ∈ groupSum rs ↔ k ∈ rs.map Prod.fst ∧ v = sumFor rs k := by
  rw [mem_lookupV (nodup_keys_groupSum rs), lookupV_groupSum]
  by_cases h : k ∈ rs.map Prod.fst <;> simp [h, eq_comm]

/-- Per-key sums are invariant under permutation of the raw results. -/
theorem sumFor_perm {κ : Type} [DecidableEq κ]
    {rs rs' : List (κ × Nat)} (h : rs.Perm rs') (k : κ) :
    sumFor rs k = sumFor rs' k :=
  ((h.filter _).map _).sum_eq

/-- Aggregation sends permuted inputs to permuted (multiset-equal) outputs. -/
theorem groupSum_perm {κ : Type} [DecidableEq κ]
    {rs rs' : List (κ × Nat)} (h : rs.Perm rs') :
    (groupSum rs).Perm (groupSum rs') := by
  rw [List.perm_ext_iff_of_nodup
    (List.Nodup.of_map _ (nodup_keys_groupSum rs))
    (List.Nodup.of_map _ (nodup_keys_groupSum rs'))]
  rintro ⟨k, v⟩
  rw [mem_groupSum, mem_groupSum, sumFor_perm h, (h.map Prod.fst).mem_iff]

/-- In an association list with distinct keys, an occurring key owns exactly
one entry. -/
theorem countP_keys_eq_one {κ : Type} [DecidableEq κ]
    {l : List (κ × Nat)} {k : κ} (hnd : (l.map Prod.fst).Nodup)
    (hk : k ∈ l.map Prod.fst) :
    l.countP (fun p => decide (p.1 = k)) = 1 := by
  induction l with
  | nil => simp at hk
  | cons p rest ih =>
      obtain ⟨a, b⟩ := p
      simp only [List.map_cons, List.nodup_cons] at hnd
      simp only [List.map_cons, List.mem_cons] at hk
      rw [List.countP_cons]
      by_cases hak : a = k
      · subst hak
        have hz : rest.countP (fun p => decide (p.1 = a)) = 0 := by
          rw [List.countP_eq_zero]
          rintro ⟨x, y⟩ hmem hdec
          simp only [decide_eq_true_eq] at hdec
          exact hnd.1 (List.mem_map.mpr ⟨(x, y), hmem, hdec⟩)
        simp [hz]
      · have hk' : k ∈ rest.map Prod.fst := by
          rcases hk with h | h
          · exact absurd h.symm hak
          · exact h
        simp [hak, ih hnd.2 hk']

end HubStats

/-- C5: the reduction of per-file results groups by file name and sums the
counts: every name occurring in the raw results owns exactly one row of the
grouped output, carrying the sum of all its counts (so a duplicated name
yields one row with the two counts added), and the grouped output of a
permuted input is a permutation of the original grouped output — the grouped
multiset is invariant under reordering. -/
theorem aggregation_groups_and_sums_order_independent
    (rs rs' : List (String × Nat)) (name : String)
    (hmem : name ∈ rs.map Prod.fst) (hperm : rs.Perm rs') :
    (name, HubStats.sumFor rs name) ∈ HubStats.groupSum rs ∧
    (HubStats.groupSum rs).countP (fun p => decide (p.1 = name)) = 1 ∧
    (HubStats.groupSum rs).Perm (HubStats.groupSum rs') := by
  refine ⟨(HubStats.mem_groupSum rs name _).mpr ⟨hmem, rfl⟩, ?_,
    HubStats.groupSum_perm hperm⟩
  have hkey : name ∈ (HubStats.groupSum rs).map Prod.fst :=
    List.mem_map.mpr
      ⟨(name, HubStats.sumFor rs name),
        (HubStats.mem_groupSum rs name _).mpr ⟨hmem, rfl⟩, rfl⟩
  exact HubStats.countP_keys_eq_one (HubStats.nodup_keys_groupSum rs) hkey

theorem aggregation_groups_and_sums_order_independent_witness :
    ("f.csv", HubStats.sumFor [("f.csv", 2), ("g.csv", 5), ("f.csv", 3)] "f.csv") ∈
        HubStats.groupSum [("f.csv", 2), ("g.csv", 5), ("f.csv", 3)] ∧
    (HubStats.groupSum [("f.csv", 2), ("g.csv", 5), ("f.csv", 3)]).countP
        (fun p => decide (p.1 = "f.csv")) = 1 ∧
    (HubStats.groupSum [("f.csv", 2), ("g.csv", 5), ("f.csv", 3)]).Perm
        (HubStats.groupSum [("g.csv", 5), ("f.csv", 3), ("f.csv", 2)]) :=
  aggregation_groups_and_sums_order_independent
    [("f.csv", 2), ("g.csv", 5), ("f.csv", 3)]
    [("g.csv", 5), ("f.csv", 3), ("f.csv", 2)] "f.csv" (by decide) (by decide)

namespace HubStats

/-- The per-key sums of the mapped `(repo, dir)` pairs agree with the
per-pair sums over the detail rows. -/
theorem sumFor_map_rows (rows : List Row) (r d : String) :
    sumFor (rows.map (fun x => ((x.repo, x.dir), x.row_count))) (r, d)
      = sumRC rows r d := by
  unfold sumFor sumRC
  rw [List.filter_map, List.map_map]
  have hfun : (Prod.snd ∘ fun x : Row => ((x.repo, x.dir), x.row_count))
      = Row.row_count := by
    funext x
    rfl
  have hpred : ((fun p : (String × String) × Nat => decide (p.1 = (r, d))) ∘
      (fun x : Row => ((x.repo, x.dir), x.row_count)))
      = (fun x : Row => decide (x.repo = r ∧ x.dir = d)) := by
    funext x
    simp [Function.comp, Prod.mk.injEq]
  rw [hfun, hpred]

end HubStats

/-- C6: the summary produced by `write_csv` groups the unioned detail table
by `(repo, dir)` and sums `row_count`: every `(repo, dir)` pair occurring in
the detail table owns exactly one summary row, whose count is the sum of the
per-file counts for that pair, and the summary is sorted by repo then dir
ascending. -/
theorem summary_groups_sums_and_is_sorted (rows : List HubStats.Row) (r d : String)
    (hmem : (r, d) ∈ rows.map (fun x => (x.repo, x.dir))) :
    ((r, d), HubStats.sumRC rows r d) ∈ HubStats.summarize rows ∧
    (HubStats.summarize rows).countP (fun p => decide (p.1 = (r, d))) = 1 ∧
    List.Sorted HubStats.entryLe (HubStats.summarize rows) := by
  have hkeys : (rows.map (fun x => ((x.repo, x.dir), x.row_count))).map Prod.fst
      = rows.map (fun x => (x.repo, x.dir)) := by
    rw [List.map_map]
    rfl
  have hmem' : (r, d) ∈ (rows.map (fun x => ((x.repo, x.dir), x.row_count))).map Prod.fst := by
    rw [hkeys]
    exact hmem
  have hperm := List.perm_insertionSort HubStats.entryLe
    (HubStats.groupSum (rows.map (fun x => ((x.repo, x.dir), x.row_count))))
  refine ⟨?_, ?_, List.sorted_insertionSort HubStats.entryLe _⟩
  · rw [HubStats.summarize]
    rw [hperm.mem_iff]
    rw [← HubStats.sumFor_map_rows]
    exact (HubStats.mem_groupSum _ (r, d) _).mpr ⟨hmem', rfl⟩
  · rw [HubStats.summarize, hperm.countP_eq]
    have hkey : (r, d) ∈
        (HubStats.groupSum (rows.map (fun x => ((x.repo, x.dir), x.row_count)))).map Prod.fst :=
      List.mem_map.mpr
        ⟨((r, d), HubStats.sumFor (rows.map (fun x => ((x.repo, x.dir), x.row_count))) (r, d)),
          (HubStats.mem_groupSum _ (r, d) _).mpr ⟨hmem', rfl⟩, rfl⟩
    exact HubStats.countP_keys_eq_one (HubStats.nodup_keys_groupSum _) hkey

theorem summary_groups_sums_and_is_sorted_witness :
    ((("o/r", "model-output") : String × String),
        HubStats.sumRC
          [⟨"a.csv", 2, "model-output", "o/r", some "m1"⟩,
           ⟨"b.csv", 3, "model-output", "o/r", some "m2"⟩,
           ⟨"t.csv", 4, "target-data", "o/r", none⟩] "o/r" "model-output") ∈
      HubStats.summarize
        [⟨"a.csv", 2, "model-output", "o/r", some "m1"⟩,
         ⟨"b.csv", 3, "model-output", "o/r", some "m2"⟩,
         ⟨"t.csv", 4, "target-data", "o/r", none⟩] ∧
    (HubStats.summarize
        [⟨"a.csv", 2, "model-output", "o/r", some "m1"⟩,
         ⟨"b.csv", 3, "model-output", "o/r", some "m2"⟩,
         ⟨"t.csv", 4, "target-data", "o/r", none⟩]).countP
      (fun p => decide (p.1 = (("o/r", "model-output") : String × String))) = 1 ∧
    List.Sorted HubStats.entryLe
      (HubStats.summarize
        [⟨"a.csv", 2, "model-output", "o/r", some "m1"⟩,
         ⟨"b.csv", 3, "model-output", "o/r", some "m2"⟩,
         ⟨"t.csv", 4, "target-data", "o/r", none⟩]) :=
  summary_groups_sums_and_is_sorted
    [⟨"a.csv", 2, "model-output", "o/r", some "m1"⟩,
     ⟨"b.csv", 3, "model-output", "o/r", some "m2"⟩,
     ⟨"t.csv", 4, "target-data", "o/r", none⟩] "o/r" "model-output" (by decide)

/-- C7 (counterexample): `standardize_repo_settings/app.py` never checks the
token: with the environment variable absent, its `main` still proceeds to
build a session — whose authorization header is the literal
`Bearer None` — and issue requests, instead of aborting. -/
theorem missing_token_app_proceeds :
    Scripts.app_main none = .proceeds (Scripts.app_get_session "None") ∧
    Scripts.app_main none ≠ .aborted ∧
    (Scripts.app_get_session "None").authHeader = "Bearer None" :=
  ⟨rfl, fun h => Scripts.ScriptRun.noConfusion h, rfl⟩

/-- C7 (amended): `get_hub_stats.py` aborts at import time when the token
variable is absent; the `main` of `archive_repos.py`, `add_repo_rulesets.py`
and `list_repos.py` aborts when it is absent or empty; but
`standardize_repo_settings/app.py` performs no check and proceeds to issue
requests with the header `Bearer None`. -/
theorem missing_token_aborts_except_app :
    Scripts.hub_stats_init none = .aborted ∧
    Scripts.guarded_main none = .aborted ∧
    Scripts.guarded_main (some "") = .aborted ∧
    Scripts.app_main none = .proceeds (Scripts.app_get_session "None") :=
  ⟨rfl, rfl, rfl, rfl⟩

/-- C8 (counterexample): not every request is issued through a client with
retries for 429/500/502/503/504: the `get_hub_stats.py` session mounts no
retry adapter at all, and `app.py`'s own `get_session` omits 429 from its
retry status list. -/
theorem retry_config_counterexample :
    (Scripts.hub_stats_session "t").retry = none ∧
    (Scripts.app_get_session "t").retry
      = some ⟨5, ["GET", "POST"], 1, [500, 502, 503, 504]⟩ ∧
    (429 : Nat) ∉ [500, 502, 503, 504] :=
  ⟨rfl, rfl, by decide⟩

/-- C8 (amended): the scripts of `reichlab_repo_utils` other than
`get_hub_stats.py` share the `util/session.py` client, which retries
transient errors and rate limits (429, 500, 502, 503, 504) with backoff for
GET/POST/PATCH; `app.py`'s client retries only 500/502/503/504 for GET/POST;
and `get_hub_stats.py` uses a session with no retry adapter. -/
theorem retry_config_per_script (token : String) :
    (Scripts.util_get_session token).retry
      = some ⟨5, ["GET", "POST", "PATCH"], 1, [429, 500, 502, 503, 504]⟩ ∧
    (Scripts.app_get_session token).retry
      = some ⟨5, ["GET", "POST"], 1, [500, 502, 503, 504]⟩ ∧
    (Scripts.hub_stats_session token).retry = none :=
  ⟨rfl, rfl, rfl⟩

/-- C10: `archive_repo` issues a PATCH for a listed repository iff its name
is in the allow-list and its `archived` flag is false; and after a run in
which every PATCH succeeded, a second run over the updated organization
state patches nothing — archiving is idempotent across runs. -/
theorem archive_patches_iff_unarchived_and_idempotent
    (allowList : List String) (repos : List Archive.RepoInfo)
    (repo : Archive.RepoInfo) :
    (repo ∈ Archive.repos_to_update allowList repos ↔
       repo ∈ repos ∧ repo.name ∈ allowList ∧ repo.archived = false) ∧
    Archive.repos_to_update allowList (Archive.apply_archive allowList repos) = [] := by
  constructor
  · rw [Archive.repos_to_update, List.mem_filter]
    simp
  · rw [Archive.repos_to_update, List.filter_eq_nil_iff]
    rintro r hr
    rw [Archive.apply_archive, List.mem_map] at hr
    obtain ⟨x, hx, rfl⟩ := hr
    by_cases h : x.name ∈ allowList ∧ x.archived = false
    · simp [h]
    · rcases not_and_or.mp h with h1 | h1 <;> simp [h, h1]

namespace HubStats

/-- In a finished task set with distinct indices, lookup by index finds the
task's unique result. -/
theorem find_key_unique {α : Type} {l : List (Nat × α)}
    (hnd : (l.map Prod.fst).Nodup) {k : Nat} {v : α} (hmem : (k, v) ∈ l) :
    l.find? (fun p => p.1 == k) = some (k, v) := by
  induction l with
  | nil => simp at hmem
  | cons p rest ih =>
      obtain ⟨a, b⟩ := p
      simp only [List.map_cons, List.nodup_cons] at hnd
      rcases List.mem_cons.mp hmem with heq | hmem'
      · injection heq with h1 h2
        subst h1
        subst h2
        exact List.find?_cons_of_pos _ (by simp)
      · have hk : k ∈ rest.map Prod.fst := List.mem_map.mpr ⟨(k, v), hmem', rfl⟩
        have hak : a ≠ k := fun hh => hnd.1 (hh ▸ hk)
        rw [List.find?_cons_of_neg _ (by simpa using hak)]
        exact ih hnd.2 hmem'

/-- Gathering by submission index recovers the results in submission order
from any completion order: if the completed set is any permutation of the
indexed result list, the gathered list is the canonical one. -/
theorem gatherResults_of_perm_enum {α : Type} (results : List α)
    (completed : List (Nat × α)) (h : completed.Perm results.enum) :
    gatherResults results.length completed = results.map some := by
  have hnd : (completed.map Prod.fst).Nodup := by
    have hp : (completed.map Prod.fst).Perm (results.enum.map Prod.fst) := h.map _
    rw [hp.nodup_iff, List.enum_map_fst]
    exact List.nodup_range _
  apply List.ext_getElem
  · simp [gatherResults]
  · intro i h1 h2
    have hi : i < results.length := by simpa using h2
    have hie : i < results.enum.length := by simpa [List.enum_length] using hi
    have hmem : (i, results[i]) ∈ results.enum := by
      rw [← List.getElem_enum results i hie]
      exact List.getElem_mem hie
    have hfind := find_key_unique hnd (h.mem_iff.mpr hmem)
    simp [gatherResults, List.getElem_range, hfind]

end HubStats

/-- C9: the per-repository output is a deterministic function of the
listings and the files' contents/metadata, independent of thread completion
order: gathering `f.result()` in submission order recovers the canonical
per-file results from any completion order of the pool, and two pipeline
runs over oracles that answer identically produce the same output table. -/
theorem pipeline_deterministic (owner repo : String) (mo td : HubStats.Listing)
    (net net' : HubStats.Network) (files : List String)
    (completed : List (Nat × (String × Nat)))
    (hperm : completed.Perm ((files.map (HubStats.count_rows net)).enum))
    (hc : net.csvText = net'.csvText)
    (hp : net.parquetNumRows = net'.parquetNumRows) :
    HubStats.gatherResults files.length completed
        = (files.map (HubStats.count_rows net)).map some ∧
    HubStats.main_pipeline owner repo mo td net
        = HubStats.main_pipeline owner repo mo td net' := by
  constructor
  · have hlen : files.length = (files.map (HubStats.count_rows net)).length := by
      rw [List.length_map]
    rw [hlen]
    exact HubStats.gatherResults_of_perm_enum _ completed hperm
  · obtain ⟨c, p⟩ := net
    obtain ⟨c', p'⟩ := net'
    simp only at hc hp
    subst hc
    subst hp
    rfl

theorem pipeline_deterministic_witness :
    HubStats.gatherResults
        (["https://e.com/d/a.csv", "https://e.com/d/b.csv"] : List String).length
        [(1, ("b.csv", 3)), (0, ("a.csv", 3))]
      = ((["https://e.com/d/a.csv", "https://e.com/d/b.csv"] : List String).map
          (HubStats.count_rows HubStats.netSplit)).map some ∧
    HubStats.main_pipeline "o" "r" .done .done HubStats.netSplit
      = HubStats.main_pipeline "o" "r" .done .done HubStats.netSplit :=
  pipeline_deterministic "o" "r" .done .done HubStats.netSplit HubStats.netSplit
    ["https://e.com/d/a.csv", "https://e.com/d/b.csv"]
    [(1, ("b.csv", 3)), (0, ("a.csv", 3))] (by decide) rfl rfl
